import Mathlib

/-!
# Palindrome service (`main.go`)

A shallow embedding of the palindrome predicate and of the four HTTP handlers of
`main.go`, with the properties of its specification.

## Strings

A Go string is read by the program only through `for _, c := range str`, which yields
its runes, and written only through `string(c)` and `+`.  A string is therefore modelled
by the sequence of runes that `range` yields over it (`GoString`); a byte that is not
part of a valid UTF-8 sequence is the rune `U+FFFD` there, as `range` yields it.  A rune
is a code point, a natural number.  The program concatenates only with a right operand
that it has built from runes, which is valid UTF-8, so the runes of a concatenation are
the runes of its operands.

## Unicode data

`unicode.IsLetter` and `unicode.ToLower` of the Go standard library are short functions
over generated tables.  Their code is embedded as it is; the code paths for Latin-1 and
ASCII, which do not consult the generated tables, are concrete; the generated tables
`unicode.Letter` and `unicode.CaseRanges` belong to the Unicode version of the toolchain
and are a parameter (`unicode.Tables`).  Two facts of the Unicode Character Database
about them are named (`LetterStable`, `LowerFixed`) and stated as hypotheses where a
proof uses them.

## Store

The handlers call GORM over PostgreSQL.  The store is a list of records with an id
sequence; whether a statement fails is not decided by the program and is an input `ok`
of every handler that sends one.  `DeleteWordHandler` passes the text of the path
parameter to `DB.Delete` as it is; text that is no integer reaches the database as SQL,
and what the database does with it is an input `sql` of the handler.
-/

/-- A rune: a Unicode code point, as `for range` yields it. -/
abbrev Rune := Nat

/-- A Go string, as the sequence of its runes. -/
abbrev GoString := List Rune

/-- The runes of a string literal. -/
def runes (s : String) : GoString := s.toList.map Char.toNat

namespace unicode

/-- `unicode.MaxASCII`. -/
def MaxASCII : Rune := 0x7F

/-- `unicode.MaxLatin1`. -/
def MaxLatin1 : Rune := 0xFF

/-- The generated tables of package `unicode` that the program consults:
`Letter r` is membership of `r` in the range table `unicode.Letter` (category L), and
`LowerCase r` is the result of `unicode.To(unicode.LowerCase, r)`, the lookup of `r` in
`unicode.CaseRanges`. -/
structure Tables where
  Letter : Rune → Bool
  LowerCase : Rune → Rune

/-- The entries of the table `unicode.properties` (Latin-1) that have one of the bits
`pLu`, `pLl` set, that is `properties[r] & pLmask != 0`:
`A-Z`, `a-z`, `U+00AA`, `U+00B5`, `U+00BA`, `U+00C0-U+00D6`, `U+00D8-U+00F6`,
`U+00F8-U+00FF`. -/
def latin1Letter (r : Rune) : Bool :=
  (0x41 ≤ r && r ≤ 0x5A) || (0x61 ≤ r && r ≤ 0x7A) || r == 0xAA || r == 0xB5 || r == 0xBA
    || (0xC0 ≤ r && r ≤ 0xD6) || (0xD8 ≤ r && r ≤ 0xF6) || (0xF8 ≤ r && r ≤ 0xFF)

/-- `unicode.IsLetter`:
```go
if uint32(r) <= MaxLatin1 { return properties[uint8(r)]&(pLmask) != 0 }
return isExcludingLatin(Letter, r)
``` -/
def IsLetter (T : Tables) (r : Rune) : Bool :=
  if r ≤ MaxLatin1 then latin1Letter r else T.Letter r

/-- `unicode.ToLower`:
```go
if r <= MaxASCII {
    if 'A' <= r && r <= 'Z' { r += 'a' - 'A' }
    return r
}
return To(LowerCase, r)
``` -/
def ToLower (T : Tables) (r : Rune) : Rune :=
  if r ≤ MaxASCII then
    if 'A'.toNat ≤ r ∧ r ≤ 'Z'.toNat then r + ('a'.toNat - 'A'.toNat) else r
  else T.LowerCase r

/-- Case mapping through the tables keeps the letter class: a rune above ASCII is a
letter exactly when its lower case is.  (A property of the Unicode Character Database:
the runes with a lower-case mapping are upper-case or title-case letters mapped to
lower-case letters, and letter-like numbers and symbols mapped to their like.) -/
def Tables.LetterStable (T : Tables) : Prop :=
  ∀ r, MaxASCII < r → IsLetter T (T.LowerCase r) = IsLetter T r

/-- Case mapping through the tables is idempotent: the lower case of a rune above ASCII
is its own lower case. -/
def Tables.LowerFixed (T : Tables) : Prop :=
  ∀ r, MaxASCII < r → ToLower T (T.LowerCase r) = T.LowerCase r

end unicode

/-- An excerpt of the generated tables, for evaluating the program on text beyond ASCII:
the case pairs of the Latin-1 Supplement (`U+00C0-U+00DE` without `U+00D7`), and the
letters and case pairs of the Greek alphabet (`U+0391-U+03A9` without `U+03A2`,
`U+03B1-U+03C9`) and of the Russian alphabet (`U+0410-U+044F`). -/
def unicode.excerpt : unicode.Tables where
  Letter r :=
    (0x391 ≤ r && r ≤ 0x3A1) || (0x3A3 ≤ r && r ≤ 0x3A9) || (0x3B1 ≤ r && r ≤ 0x3C9)
      || (0x410 ≤ r && r ≤ 0x44F)
  LowerCase r :=
    if (0xC0 ≤ r ∧ r ≤ 0xD6) ∨ (0xD8 ≤ r ∧ r ≤ 0xDE) ∨ (0x391 ≤ r ∧ r ≤ 0x3A1)
        ∨ (0x3A3 ≤ r ∧ r ≤ 0x3A9) ∨ (0x410 ≤ r ∧ r ≤ 0x42F) then r + 32
    else r

namespace strings

/-- `strings.ToLower`: a string of ASCII bytes is mapped byte by byte, `A-Z` to `a-z`;
any other string is `strings.Map(unicode.ToLower, s)`, which maps every rune of `s`. -/
def ToLower (T : unicode.Tables) (s : GoString) : GoString :=
  if s.all (fun c => c < 0x80) then
    s.map (fun c => if 'A'.toNat ≤ c ∧ c ≤ 'Z'.toNat then c + ('a'.toNat - 'A'.toNat) else c)
  else
    s.map (unicode.ToLower T)

end strings

/-- `ReverseStr`: every rune of `str` is put in front of the string built so far. -/
def ReverseStr (str : GoString) : GoString :=
  str.foldl (fun newString s => [s] ++ newString) []

/-- `IsPalindrome`: lower the string, keep the runes that are letters, compare the result
with `ReverseStr` of it. -/
def IsPalindrome (T : unicode.Tables) (str : GoString) : Bool :=
  let str := strings.ToLower T str
  let newStr := str.foldl (fun newStr c => if unicode.IsLetter T c then newStr ++ [c] else newStr) []
  newStr == ReverseStr newStr

/-- The string `IsPalindrome` compares with its reverse: the letters of the lowered
string. -/
def letters (T : unicode.Tables) (s : GoString) : GoString :=
  (s.map (unicode.ToLower T)).filter (unicode.IsLetter T)

/-- The normalisation of the specification: discard every rune that is not a letter,
then fold the remaining runes to lower case. -/
def specNormalize (T : unicode.Tables) (s : GoString) : GoString :=
  (s.filter (unicode.IsLetter T)).map (unicode.ToLower T)

/-- The predicate of the specification: the normalised string equals its reversed form. -/
def specIsPalindrome (T : unicode.Tables) (s : GoString) : Bool :=
  decide (specNormalize T s = (specNormalize T s).reverse)

/-! ## The word store

The store is GORM over PostgreSQL; neither is part of the repository. -/

/-- The `Word` record: `ID` (a Go `int`, the primary key), the text as submitted, and
the flag computed at creation. -/
structure Word where
  ID : Int
  Word : GoString
  Palindrome : Bool
deriving DecidableEq, Repr

/-- The values of a Go `int` (64 bit). -/
def fitsInt (v : Int) : Bool := decide (-(2 : Int) ^ 63 ≤ v) && decide (v < (2 : Int) ^ 63)

/-- One digit more: the value read so far times ten plus the digit `ch`; `none` when
`ch` is not a decimal digit. -/
def digitStep (acc : Option Nat) (ch : Rune) : Option Nat :=
  match acc with
  | none => none
  | some n =>
    if '0'.toNat ≤ ch ∧ ch ≤ '9'.toNat then some (n * 10 + (ch - '0'.toNat)) else none

/-- The value of a string of decimal digits, `none` when a rune is not a digit. -/
def parseDigits (s : GoString) : Option Nat :=
  s.foldl digitStep (some 0)

/-- `strconv.Atoi`: an optional sign and at least one decimal digit, denoting a value of
an `int`; `none` is the error result. -/
def Atoi (s : GoString) : Option Int :=
  let neg := s.head? = some '-'.toNat
  let ds := if s.head? = some '-'.toNat ∨ s.head? = some '+'.toNat then s.tail else s
  if ds = [] then none
  else
    match parseDigits ds with
    | none => none
    | some n =>
      let v : Int := if neg then -(n : Int) else (n : Int)
      if fitsInt v then some v else none

/-- The decimal digits of `n`, the most significant first, in front of `acc`. -/
def digitsCore : Nat → Nat → GoString → GoString
  | 0, _, acc => acc
  | fuel + 1, n, acc =>
    let acc := ('0'.toNat + n % 10) :: acc
    if n / 10 = 0 then acc else digitsCore fuel (n / 10) acc

/-- `strconv.Itoa`: the decimal text of an integer, as a client writes an id into the
path of `DELETE /words/:id`. -/
def Itoa (i : Int) : GoString :=
  if i < 0 then '-'.toNat :: digitsCore (i.natAbs + 1) i.natAbs []
  else digitsCore (i.natAbs + 1) i.natAbs []

/-- Modelled from the spec: the Word Store of §4.2 (the table `words` behind GORM and
PostgreSQL, which the repository does not contain): the stored records, and the sequence
that assigns the next `id`. -/
structure Store where
  rows : List Word
  nextID : Int
deriving DecidableEq, Repr

/-- The store with no record. -/
def Store.empty : Store := { rows := [], nextID := 1 }

/-- Modelled from the spec: `Create(text, isPalindrome) -> record | error` of §4.2, behind
`DB.Create(&newWord)`: "inserts a new row, assigns a unique id, returns the full record.
Fails with a StorageError if the underlying connection or write fails."  `ok` says that
connection and write do not fail; the write also fails when the id is not a value of the
field `ID int` or is the primary key of a stored row. -/
def Store.Create (db : Store) (ok : Bool) (value : Word) : Option (Word × Store) :=
  if ok && fitsInt db.nextID && !(db.rows.any (fun r => r.ID == db.nextID)) then
    let row : Word := { value with ID := db.nextID }
    some (row, { rows := db.rows ++ [row], nextID := db.nextID + 1 })
  else none

/-- Modelled from the spec: `ListAll() -> sequence of records | error` of §4.2, behind
`DB.Find(&words)`: "returns every stored record"; "Fails with StorageError on connection
failure."  `ok` says that the connection does not fail. -/
def Store.Find (db : Store) (ok : Bool) : Option (List Word) :=
  if ok then some db.rows else none

/-- Modelled from the spec: `DeleteByID(id) -> success/failure` of §4.2, behind
`DB.Delete(&Word{}, id)`: "removes the row matching `id` if present"; "the operation
reports success as long as the delete statement itself executes without a connection-level
error".  `ok` says that the statement executes.  `id` is the text of the path parameter,
which the handler does not validate: text that `strconv.Atoi` reads is the id of the row
to remove; any other text GORM writes into the statement as SQL, and `sql` is what the
database then does to the store, which is not confined to removing rows. -/
def Store.Delete (sql : GoString → Store → Store) (db : Store) (ok : Bool) (id : GoString) :
    Option Store :=
  if ok then
    match Atoi id with
    | some n => some { db with rows := db.rows.filter (fun r => !(r.ID == n)) }
    | none => some (sql id db)
  else none

/-! ## The handlers -/

/-- The JSON bodies the handlers write (`gin.H` with the keys named by the fields). -/
inductive Body where
  | error (error : String)
  | check (message : Bool)
  | saved (message : String) (word : GoString) (palindrome : Bool)
  | words (words : List Word)
  | message (message : String)
deriving DecidableEq, Repr

/-- An HTTP response: `c.JSON(status, body)`. -/
structure Response where
  status : Nat
  body : Body
deriving DecidableEq, Repr

/-- `c.Query("word")`: the value of the query parameter, the empty string when absent. -/
def Query (word : Option GoString) : GoString := word.getD []

/-- The handler of `GET /ispalindrome` in `main`. -/
def ispalindromeHandler (T : unicode.Tables) (db : Store) (word : Option GoString) :
    Response × Store :=
  let word := Query word
  (⟨200, Body.check (IsPalindrome T word)⟩, db)

/-- `SavePalindromeHandler`. -/
def SavePalindromeHandler (T : unicode.Tables) (db : Store) (ok : Bool)
    (word : Option GoString) : Response × Store :=
  let word := Query word
  if word = [] then
    (⟨400, Body.error "Word query parameter is required"⟩, db)
  else
    let isPalindrome := IsPalindrome T word
    let newWord : Word := { ID := 0, Word := word, Palindrome := isPalindrome }
    match db.Create ok newWord with
    | none => (⟨500, Body.error "Failed to save the word"⟩, db)
    | some (newWord, db) =>
      (⟨200, Body.saved "Word saved successfully" newWord.Word newWord.Palindrome⟩, db)

/-- `GetWordsHandler`. -/
def GetWordsHandler (db : Store) (ok : Bool) : Response × Store :=
  match db.Find ok with
  | none => (⟨500, Body.error "Failed to fetch words"⟩, db)
  | some words => (⟨200, Body.words words⟩, db)

/-- `DeleteWordHandler`. -/
def DeleteWordHandler (sql : GoString → Store → Store) (db : Store) (ok : Bool)
    (id : GoString) : Response × Store :=
  match Store.Delete sql db ok id with
  | none => (⟨500, Body.error "Failed to delete the word"⟩, db)
  | some db => (⟨200, Body.message "Word deleted successfully"⟩, db)

/-- A request to one of the four routes registered in `main`. -/
inductive Request where
  | check (word : Option GoString)
  | save (word : Option GoString)
  | list
  | delete (id : GoString)
deriving DecidableEq, Repr

/-- The router: one request served on the store `db`; `ok` says that the statement the
handler sends to the database, if any, does not fail, and `sql` is what the database does
with a path text of a delete that is no id. -/
def serve (T : unicode.Tables) (sql : GoString → Store → Store) (db : Store) (ok : Bool) :
    Request → Response × Store
  | Request.check word => ispalindromeHandler T db word
  | Request.save word => SavePalindromeHandler T db ok word
  | Request.list => GetWordsHandler db ok
  | Request.delete id => DeleteWordHandler sql db ok id

/-- The store after a sequence of requests, each with the outcome of its statement. -/
def run (T : unicode.Tables) (sql : GoString → Store → Store) (db : Store) :
    List (Request × Bool) → Store
  | [] => db
  | (req, ok) :: rest => run T sql (serve T sql db ok req).2 rest

/-- A request that is not a delete, or a delete whose path text is an id. -/
def Request.byId : Request → Bool
  | Request.delete id => (Atoi id).isSome
  | _ => true

/-- A path text for `DELETE /words/:id` that is no id: a condition that no row meets,
followed by a second statement. -/
def flagUpdate : GoString := runes "1=0; UPDATE words SET palindrome = NOT palindrome"

/-- The store after `UPDATE words SET palindrome = NOT palindrome`: the flag of every
record negated. -/
def Store.negated (db : Store) : Store :=
  { db with rows := db.rows.map (fun r => { r with Palindrome := !r.Palindrome }) }

/-- The record a save of `word` creates on the store `db`. -/
def created (T : unicode.Tables) (db : Store) (word : GoString) : Word :=
  { ID := db.nextID, Word := word, Palindrome := IsPalindrome T word }

/-- The store `db` after a save of `word` that succeeds. -/
def saved (T : unicode.Tables) (db : Store) (word : GoString) : Store :=
  { rows := db.rows ++ [created T db word], nextID := db.nextID + 1 }

/-- The flag of every stored record is the predicate of its text. -/
def Store.Consistent (T : unicode.Tables) (db : Store) : Prop :=
  ∀ r ∈ db.rows, r.Palindrome = IsPalindrome T r.Word

/-! ## The predicate -/

theorem ReverseStr_acc (s acc : GoString) :
    s.foldl (fun newString c => [c] ++ newString) acc = s.reverse ++ acc := by
  induction s generalizing acc with
  | nil => rfl
  | cons c s ih => simp [ih]

theorem ReverseStr_eq_reverse (s : GoString) : ReverseStr s = s.reverse := by
  simp [ReverseStr, ReverseStr_acc]

theorem keep_acc (p : Rune → Bool) (s acc : GoString) :
    s.foldl (fun newStr c => if p c then newStr ++ [c] else newStr) acc = acc ++ s.filter p := by
  induction s generalizing acc with
  | nil => simp
  | cons c s ih =>
    by_cases h : p c <;> simp [ih, h]

theorem unicode.ToLower_unfold (T : unicode.Tables) (r : Nat) :
    unicode.ToLower T r
      = if r ≤ 127 then (if 65 ≤ r ∧ r ≤ 90 then r + 32 else r) else T.LowerCase r := rfl

theorem unicode.IsLetter_unfold (T : unicode.Tables) (r : Nat) :
    unicode.IsLetter T r = if r ≤ 255 then unicode.latin1Letter r else T.Letter r := rfl

theorem unicode.latin1Letter_upper (r : Nat) (h1 : 65 ≤ r) (h2 : r ≤ 90) :
    unicode.latin1Letter r = true ∧ unicode.latin1Letter (r + 32) = true := by
  have a1 : decide (0x41 ≤ r) = true := decide_eq_true h1
  have a2 : decide (r ≤ 0x5A) = true := decide_eq_true h2
  have b1 : decide (0x61 ≤ r + 32) = true := decide_eq_true (by omega)
  have b2 : decide (r + 32 ≤ 0x7A) = true := decide_eq_true (by omega)
  constructor
  · simp only [unicode.latin1Letter, a1, a2, Bool.and_self, Bool.true_or]
  · simp only [unicode.latin1Letter, b1, b2, Bool.and_self, Bool.true_or, Bool.or_true]

theorem strings.ToLower_eq_map (T : unicode.Tables) (s : GoString) :
    strings.ToLower T s = s.map (unicode.ToLower T) := by
  unfold strings.ToLower
  split
  · rename_i h
    apply List.map_congr_left
    intro c hc
    have hlt : c < 0x80 := by simpa using List.all_eq_true.mp h c hc
    have hle : c ≤ 127 := by omega
    rw [unicode.ToLower_unfold, if_pos hle]
    rfl
  · rfl

theorem IsPalindrome_eq (T : unicode.Tables) (s : GoString) :
    IsPalindrome T s = decide (letters T s = (letters T s).reverse) := by
  simp only [IsPalindrome, letters, keep_acc, ReverseStr_eq_reverse, strings.ToLower_eq_map,
    List.nil_append]
  rw [Bool.eq_iff_iff]
  simp

theorem IsPalindrome_iff (T : unicode.Tables) (s : GoString) :
    IsPalindrome T s = true ↔ letters T s = (letters T s).reverse := by
  simp [IsPalindrome_eq]

theorem unicode.IsLetter_ToLower (T : unicode.Tables) (hT : T.LetterStable) (r : Nat) :
    unicode.IsLetter T (unicode.ToLower T r) = unicode.IsLetter T r := by
  by_cases h : r ≤ 127
  · by_cases hu : 65 ≤ r ∧ r ≤ 90
    · have e : unicode.ToLower T r = r + 32 := by
        rw [unicode.ToLower_unfold, if_pos h, if_pos hu]
      have l := unicode.latin1Letter_upper r hu.1 hu.2
      rw [e, unicode.IsLetter_unfold, unicode.IsLetter_unfold, if_pos (by omega),
        if_pos (by omega), l.1, l.2]
    · have e : unicode.ToLower T r = r := by
        rw [unicode.ToLower_unfold, if_pos h, if_neg hu]
      rw [e]
  · have e : unicode.ToLower T r = T.LowerCase r := by
      rw [unicode.ToLower_unfold, if_neg h]
    rw [e]
    exact hT r (by show 127 < r; omega)

theorem unicode.ToLower_ToLower (T : unicode.Tables) (hT : T.LowerFixed) (r : Nat) :
    unicode.ToLower T (unicode.ToLower T r) = unicode.ToLower T r := by
  by_cases h : r ≤ 127
  · by_cases hu : 65 ≤ r ∧ r ≤ 90
    · have e : unicode.ToLower T r = r + 32 := by
        rw [unicode.ToLower_unfold, if_pos h, if_pos hu]
      rw [e, unicode.ToLower_unfold, if_pos (by omega), if_neg (by omega)]
    · have e : unicode.ToLower T r = r := by
        rw [unicode.ToLower_unfold, if_pos h, if_neg hu]
      rw [e, e]
  · have e : unicode.ToLower T r = T.LowerCase r := by
      rw [unicode.ToLower_unfold, if_neg h]
    rw [e]
    exact hT r (by show 127 < r; omega)

theorem letters_eq_specNormalize (T : unicode.Tables) (hT : T.LetterStable) (s : GoString) :
    letters T s = specNormalize T s := by
  unfold letters specNormalize
  induction s with
  | nil => rfl
  | cons c s ih =>
    have hc := unicode.IsLetter_ToLower T hT c
    by_cases h : unicode.IsLetter T c = true
    · simp only [List.map_cons]
      rw [List.filter_cons_of_pos (by rw [hc]; exact h), List.filter_cons_of_pos h, ih]
      rfl
    · simp only [List.map_cons]
      rw [List.filter_cons_of_neg (by rw [hc]; exact h), List.filter_cons_of_neg h, ih]

theorem letters_append (T : unicode.Tables) (s t : GoString) :
    letters T (s ++ t) = letters T s ++ letters T t := by
  simp [letters]

theorem letters_reverse (T : unicode.Tables) (s : GoString) :
    letters T s.reverse = (letters T s).reverse := by
  simp [letters, List.filter_reverse]

theorem letters_letters (T : unicode.Tables) (hT : T.LowerFixed) (s : GoString) :
    letters T (letters T s) = letters T s := by
  unfold letters
  induction s with
  | nil => rfl
  | cons c s ih =>
    by_cases h : unicode.IsLetter T (unicode.ToLower T c) = true
    · simp only [List.map_cons]
      rw [List.filter_cons_of_pos h]
      simp only [List.map_cons]
      rw [unicode.ToLower_ToLower T hT c, List.filter_cons_of_pos h, ih]
    · simp only [List.map_cons]
      rw [List.filter_cons_of_neg h, ih]

theorem unicode.excerpt_LetterStable : unicode.excerpt.LetterStable := by
  intro (r : Nat) (hr : 127 < r)
  rw [Bool.eq_iff_iff]
  simp only [unicode.IsLetter_unfold, unicode.excerpt, unicode.latin1Letter]
  unfold Rune
  split_ifs <;>
    simp only [Bool.or_eq_true, Bool.and_eq_true, decide_eq_true_eq, beq_iff_eq] <;> omega

theorem unicode.excerpt_LowerFixed : unicode.excerpt.LowerFixed := by
  intro (r : Nat) (hr : 127 < r)
  simp only [unicode.ToLower_unfold, unicode.excerpt]
  unfold Rune
  split_ifs <;> omega

/-- C1: `IsPalindrome(s)` is true exactly when the string obtained from `s` by discarding
the runes that are not letters and then folding to lower case equals its reversed form,
although the code lowers first and filters afterwards; the generated Unicode tables enter
through the fact that case mapping keeps the letter class. -/
theorem IsPalindrome_refines_spec (T : unicode.Tables) (hT : T.LetterStable) (s : GoString) :
    (IsPalindrome T s = true ↔ specNormalize T s = (specNormalize T s).reverse)
      ∧ IsPalindrome T s = specIsPalindrome T s := by
  have h := letters_eq_specNormalize T hT s
  constructor
  · rw [IsPalindrome_iff, h]
  · rw [IsPalindrome_eq, h]; rfl

theorem IsPalindrome_refines_spec_witness :
    unicode.excerpt.LetterStable
      ∧ IsPalindrome unicode.excerpt (runes "А роза упала на лапу Азора") = true
      ∧ ((IsPalindrome unicode.excerpt (runes "А роза упала на лапу Азора") = true
            ↔ specNormalize unicode.excerpt (runes "А роза упала на лапу Азора")
                = (specNormalize unicode.excerpt (runes "А роза упала на лапу Азора")).reverse)
          ∧ IsPalindrome unicode.excerpt (runes "А роза упала на лапу Азора")
              = specIsPalindrome unicode.excerpt (runes "А роза упала на лапу Азора")) :=
  ⟨unicode.excerpt_LetterStable, by decide,
    IsPalindrome_refines_spec unicode.excerpt unicode.excerpt_LetterStable
      (runes "А роза упала на лапу Азора")⟩

/-- The property of the tables that C1 assumes is the one it needs: if `IsPalindrome`
computes the predicate of the specification on every string, case mapping through the
tables keeps the letter class. -/
theorem unicode.LetterStable_of_refines (T : unicode.Tables)
    (h : ∀ s, IsPalindrome T s = specIsPalindrome T s) : T.LetterStable := by
  intro (r : Nat) (hr : 127 < r)
  have hlow : unicode.ToLower T r = T.LowerCase r := by
    rw [unicode.ToLower_unfold, if_neg (by omega)]
  have la : ∀ c : Nat, 97 ≤ c → c ≤ 122 → unicode.ToLower T c = c ∧ unicode.IsLetter T c = true := by
    intro c h1 h2
    constructor
    · rw [unicode.ToLower_unfold, if_pos (by omega), if_neg (by omega)]
    · have := (unicode.latin1Letter_upper (c - 32) (by omega) (by omega)).2
      rw [unicode.IsLetter_unfold, if_pos (by omega)]
      have e : c - 32 + 32 = c := by omega
      rw [e] at this
      exact this
  rw [← hlow]
  by_contra hne
  cases hl : unicode.IsLetter T r with
  | true =>
    have hx : unicode.IsLetter T (unicode.ToLower T r) = false := by
      rw [hl] at hne
      simpa using hne
    have h1 := h [r, 97]
    have ne : unicode.ToLower T r ≠ 97 := by
      intro e
      rw [e, (la 97 (by omega) (by omega)).2] at hx
      exact Bool.noConfusion hx
    simp [IsPalindrome_eq, letters, specIsPalindrome, specNormalize, hl, hx,
      (la 97 (by omega) (by omega)).1, (la 97 (by omega) (by omega)).2, ne] at h1
  | false =>
    have hx : unicode.IsLetter T (unicode.ToLower T r) = true := by
      rw [hl] at hne
      simpa using hne
    have h1 := h [r, 97]
    have h2 := h [r, 98]
    simp [IsPalindrome_eq, letters, specIsPalindrome, specNormalize, hl, hx,
      (la 97 (by omega) (by omega)).1, (la 97 (by omega) (by omega)).2] at h1
    simp [IsPalindrome_eq, letters, specIsPalindrome, specNormalize, hl, hx,
      (la 98 (by omega) (by omega)).1, (la 98 (by omega) (by omega)).2] at h2
    exact absurd (h1.2.trans h2.1) (by decide)

/-- C2: on a string that holds no letter (the empty string, digits, punctuation, white
space) `IsPalindrome` returns true. -/
theorem IsPalindrome_of_no_letter (T : unicode.Tables) (hT : T.LetterStable) (s : GoString)
    (h : ∀ c ∈ s, unicode.IsLetter T c = false) : IsPalindrome T s = true := by
  have e : s.filter (unicode.IsLetter T) = [] := by
    rw [List.filter_eq_nil_iff]
    intro c hc
    rw [h c hc]
    decide
  rw [IsPalindrome_iff, letters_eq_specNormalize T hT s, specNormalize, e]
  rfl

theorem IsPalindrome_of_no_letter_witness :
    unicode.excerpt.LetterStable
      ∧ (∀ c ∈ runes "12 × 21 = ?", unicode.IsLetter unicode.excerpt c = false)
      ∧ IsPalindrome unicode.excerpt (runes "12 × 21 = ?") = true :=
  ⟨unicode.excerpt_LetterStable, by decide,
    IsPalindrome_of_no_letter unicode.excerpt unicode.excerpt_LetterStable
      (runes "12 × 21 = ?") (by decide)⟩

/-- C3: `IsPalindrome` is true on "", on "A", on "Race car" and on "12321", and false on
"hello", whatever the generated tables hold. -/
theorem IsPalindrome_examples (T : unicode.Tables) :
    IsPalindrome T (runes "") = true ∧ IsPalindrome T (runes "A") = true
      ∧ IsPalindrome T (runes "Race car") = true ∧ IsPalindrome T (runes "hello") = false
      ∧ IsPalindrome T (runes "12321") = true :=
  ⟨rfl, rfl, rfl, rfl, rfl⟩

/-- C4: `IsPalindrome(s)` equals `IsPalindrome(r(s))`, where `r(s)` is `ReverseStr` applied
to the lowered `s` with the runes that are not letters removed; the generated Unicode
tables enter through the fact that case mapping is idempotent. -/
theorem IsPalindrome_normalized (T : unicode.Tables) (hT : T.LowerFixed) (s : GoString) :
    IsPalindrome T s
      = IsPalindrome T (ReverseStr ((strings.ToLower T s).filter (unicode.IsLetter T))) := by
  have e : (strings.ToLower T s).filter (unicode.IsLetter T) = letters T s := by
    rw [strings.ToLower_eq_map]; rfl
  rw [e, ReverseStr_eq_reverse, IsPalindrome_eq, IsPalindrome_eq, letters_reverse,
    letters_letters T hT, List.reverse_reverse, Bool.eq_iff_iff]
  simp only [decide_eq_true_eq]
  exact eq_comm

theorem IsPalindrome_normalized_witness :
    unicode.excerpt.LowerFixed
      ∧ IsPalindrome unicode.excerpt (runes "Été, Ανα; hello")
          = IsPalindrome unicode.excerpt (ReverseStr
              ((strings.ToLower unicode.excerpt (runes "Été, Ανα; hello")).filter
                (unicode.IsLetter unicode.excerpt))) :=
  ⟨unicode.excerpt_LowerFixed,
    IsPalindrome_normalized unicode.excerpt unicode.excerpt_LowerFixed (runes "Été, Ανα; hello")⟩

/-- C10: `ReverseStr` reverses the sequence of runes; the letters of the lowered
`s ++ ReverseStr(s)` are the letters of the lowered `s` followed by their reverse; and
`IsPalindrome(s ++ ReverseStr(s))` is true for every string `s`, whatever the generated
tables hold. -/
theorem IsPalindrome_append_ReverseStr (T : unicode.Tables) (s : GoString) :
    ReverseStr s = s.reverse
      ∧ (strings.ToLower T (s ++ ReverseStr s)).filter (unicode.IsLetter T)
          = (strings.ToLower T s).filter (unicode.IsLetter T)
            ++ ((strings.ToLower T s).filter (unicode.IsLetter T)).reverse
      ∧ IsPalindrome T (s ++ ReverseStr s) = true := by
  have e : ∀ t : GoString, (strings.ToLower T t).filter (unicode.IsLetter T) = letters T t := by
    intro t
    rw [strings.ToLower_eq_map]
    rfl
  refine ⟨ReverseStr_eq_reverse s, ?_, ?_⟩
  · rw [e, e, ReverseStr_eq_reverse, letters_append, letters_reverse]
  · rw [IsPalindrome_iff, ReverseStr_eq_reverse, letters_append, letters_reverse]
    simp

/-! ## Decimal text of an id -/

theorem digitStep_digit (k n : Nat) :
    digitStep (some k) ('0'.toNat + n % 10) = some (k * 10 + n % 10) := by
  have h : n % 10 < 10 := Nat.mod_lt _ (by decide)
  have e : '0'.toNat = 48 := rfl
  have e9 : '9'.toNat = 57 := rfl
  have hc : (48 : Nat) ≤ 48 + n % 10 ∧ 48 + n % 10 ≤ 57 := by omega
  simp only [digitStep, e, e9]
  rw [if_pos hc]
  congr 1
  omega

theorem digitsCore_spec (fuel : Nat) : ∀ (n : Nat) (acc : GoString), n < fuel →
    ∃ ds : List Nat, ds ≠ [] ∧ digitsCore fuel n acc = ds ++ acc
      ∧ (∀ d : Nat, ds.head? = some d → 48 ≤ d ∧ d ≤ 57)
      ∧ ∀ k, ds.foldl digitStep (some k) = some (k * 10 ^ ds.length + n) := by
  induction fuel with
  | zero => intro n acc h; omega
  | succ fuel ih =>
    intro n acc h
    have e : '0'.toNat = 48 := rfl
    have hm : n % 10 < 10 := Nat.mod_lt _ (by decide)
    by_cases h0 : n / 10 = 0
    · refine ⟨['0'.toNat + n % 10], by simp, ?_, ?_, ?_⟩
      · show (if n / 10 = 0 then _ else _) = _
        rw [if_pos h0]
        rfl
      · intro d hd
        have hd' : '0'.toNat + n % 10 = d := by
          rw [List.head?_cons] at hd
          exact Option.some.inj hd
        rw [e] at hd'
        omega
      · intro k
        have hn : n % 10 = n := by omega
        rw [List.foldl_cons, List.foldl_nil, digitStep_digit, List.length_singleton, pow_one,
          hn]
    · obtain ⟨ds, hne, hds, hhead, hval⟩ := ih (n / 10) (('0'.toNat + n % 10) :: acc) (by omega)
      refine ⟨ds ++ ['0'.toNat + n % 10], by simp, ?_, ?_, ?_⟩
      · show (if n / 10 = 0 then _ else digitsCore fuel (n / 10) _) = _
        rw [if_neg h0, hds, List.append_assoc]
        rfl
      · intro d hd
        apply hhead d
        cases ds with
        | nil => exact absurd rfl hne
        | cons x xs => simpa using hd
      · intro k
        rw [List.foldl_append, hval k, List.foldl_cons, List.foldl_nil, digitStep_digit,
          List.length_append, List.length_singleton, pow_succ]
        congr 1
        have := Nat.div_add_mod n 10
        nlinarith [Nat.div_add_mod n 10]

theorem Atoi_digits (d : Nat) (t : List Nat) (n : Nat) (hd : 48 ≤ d ∧ d ≤ 57)
    (hp : parseDigits (d :: t) = some n) (hf : fitsInt (n : Int) = true) :
    Atoi (d :: t) = some (n : Int) := by
  have e1 : '-'.toNat = 45 := rfl
  have e2 : '+'.toNat = 43 := rfl
  have n1 : ¬ d = 45 := by omega
  have n2 : ¬ d = 43 := by omega
  simp only [Atoi, List.head?_cons, Option.some.injEq, e1, e2, n1, n2, or_self, if_false, hp,
    hf, if_true, reduceCtorEq]

theorem Atoi_minus_digits (d : Nat) (t : List Nat) (n : Nat)
    (hp : parseDigits (d :: t) = some n) (hf : fitsInt (-(n : Int)) = true) :
    Atoi ('-'.toNat :: d :: t) = some (-(n : Int)) := by
  simp only [Atoi, List.head?_cons, true_or, if_true, List.tail_cons, hp, hf, reduceCtorEq,
    if_false]

theorem Atoi_Itoa (i : Int) (h : fitsInt i = true) : Atoi (Itoa i) = some i := by
  obtain ⟨ds, hne, hds, hhead, hval⟩ := digitsCore_spec (i.natAbs + 1) i.natAbs [] (by omega)
  rw [List.append_nil] at hds
  have hp : parseDigits ds = some i.natAbs := by
    rw [parseDigits, hval 0, Nat.zero_mul, Nat.zero_add]
  obtain ⟨d, t, rfl⟩ : ∃ (d : Nat) (t : List Nat), ds = d :: t := by
    cases ds with
    | nil => exact absurd rfl hne
    | cons d t => exact ⟨d, t, rfl⟩
  have hd := hhead d rfl
  by_cases hi : i < 0
  · have hs : Itoa i = '-'.toNat :: (d :: t) := by rw [Itoa, if_pos hi, hds]
    have hv : -((i.natAbs : Nat) : Int) = i := by omega
    rw [hs, Atoi_minus_digits d t i.natAbs hp (by rw [hv]; exact h), hv]
  · have hs : Itoa i = d :: t := by rw [Itoa, if_neg hi, hds]
    have hv : ((i.natAbs : Nat) : Int) = i := by omega
    rw [hs, Atoi_digits d t i.natAbs hd hp (by rw [hv]; exact h), hv]

/-! ## The handlers on the store -/

theorem Store.Delete_Itoa (sql : GoString → Store → Store) (db : Store) (i : Int)
    (h : fitsInt i = true) :
    Store.Delete sql db true (Itoa i)
      = some { db with rows := db.rows.filter (fun r => !(r.ID == i)) } := by
  simp only [Store.Delete, if_true, Atoi_Itoa i h]

theorem SavePalindromeHandler_cases (T : unicode.Tables) (db : Store) (ok : Bool)
    (word : Option GoString) :
    ((SavePalindromeHandler T db ok word).1.status ≠ 200
        ∧ (SavePalindromeHandler T db ok word).2 = db)
      ∨ (Query word ≠ [] ∧ fitsInt db.nextID = true ∧ (∀ r ∈ db.rows, r.ID ≠ db.nextID)
        ∧ SavePalindromeHandler T db ok word
          = (⟨200, Body.saved "Word saved successfully" (Query word)
                (IsPalindrome T (Query word))⟩, saved T db (Query word))) := by
  unfold SavePalindromeHandler
  by_cases hw : Query word = []
  · left
    simp [hw]
  · by_cases hc : (ok && fitsInt db.nextID && !(db.rows.any (fun r => r.ID == db.nextID))) = true
    · right
      have hc' := hc
      simp only [Bool.and_eq_true, Bool.not_eq_true', List.any_eq_false, beq_iff_eq] at hc'
      refine ⟨hw, hc'.1.2, fun r hr => hc'.2 r hr, ?_⟩
      simp only [hw, if_false, Store.Create, hc, if_true]
      rfl
    · left
      simp only [hw, if_false, Store.Create, hc]
      exact ⟨by simp, rfl⟩

theorem SavePalindromeHandler_of_ok (T : unicode.Tables) (db : Store) (ok : Bool)
    (word : Option GoString) (h : (SavePalindromeHandler T db ok word).1.status = 200) :
    Query word ≠ [] ∧ fitsInt db.nextID = true ∧ (∀ r ∈ db.rows, r.ID ≠ db.nextID)
      ∧ SavePalindromeHandler T db ok word
        = (⟨200, Body.saved "Word saved successfully" (Query word)
              (IsPalindrome T (Query word))⟩, saved T db (Query word)) := by
  rcases SavePalindromeHandler_cases T db ok word with h1 | h2
  · exact absurd h h1.1
  · exact h2

theorem DeleteWordHandler_rows (sql : GoString → Store → Store) (db : Store) (ok : Bool)
    (id : GoString) (h : (Atoi id).isSome = true) :
    (DeleteWordHandler sql db ok id).2.rows.Sublist db.rows := by
  obtain ⟨n, hn⟩ := Option.isSome_iff_exists.mp h
  cases ok
  · exact List.Sublist.refl _
  · simp only [DeleteWordHandler, Store.Delete, if_true, hn]
    exact List.filter_sublist _

/-- What a request other than a delete by free text leaves of the stored records: the
records of before in their order, some of them deleted, or the records of before and the
one record a save creates. -/
theorem serve_rows (T : unicode.Tables) (sql : GoString → Store → Store) (db : Store)
    (ok : Bool) (req : Request) (hreq : req.byId = true) :
    (serve T sql db ok req).2.rows.Sublist db.rows
      ∨ ∃ word, req = Request.save word
          ∧ (serve T sql db ok req).2.rows = db.rows ++ [created T db (Query word)] := by
  cases req with
  | check word => left; exact List.Sublist.refl _
  | save word =>
    rcases SavePalindromeHandler_cases T db ok word with h | h
    · left
      show ((SavePalindromeHandler T db ok word).2).rows.Sublist db.rows
      rw [h.2]
    · right
      refine ⟨word, rfl, ?_⟩
      show ((SavePalindromeHandler T db ok word).2).rows = _
      rw [h.2.2.2]
      rfl
  | list =>
    left
    show ((GetWordsHandler db ok).2).rows.Sublist db.rows
    cases ok <;> exact List.Sublist.refl _
  | delete id =>
    left
    exact DeleteWordHandler_rows sql db ok id hreq

theorem serve_Consistent (T : unicode.Tables) (sql : GoString → Store → Store) (db : Store)
    (ok : Bool) (req : Request) (hreq : req.byId = true) (h : db.Consistent T) :
    (serve T sql db ok req).2.Consistent T := by
  intro r hr
  rcases serve_rows T sql db ok req hreq with hs | ⟨word, _, hs⟩
  · exact h r (hs.subset hr)
  · rw [hs, List.mem_append, List.mem_singleton] at hr
    rcases hr with hr | hr
    · exact h r hr
    · rw [hr]; rfl

/-- Where every delete names an id, the flag of every stored record stays the predicate
of its word, whatever the outcomes of the statements. -/
theorem run_Consistent (T : unicode.Tables) (sql : GoString → Store → Store)
    (trace : List (Request × Bool)) (htrace : ∀ step ∈ trace, step.1.byId = true) :
    ∀ db : Store, db.Consistent T → (run T sql db trace).Consistent T := by
  induction trace with
  | nil => intro db h; exact h
  | cons step rest ih =>
    intro db h
    exact ih (fun st hst => htrace st (List.mem_cons_of_mem _ hst)) _
      (serve_Consistent T sql db step.2 step.1 (htrace step (List.mem_cons_self _ _)) h)

/-- C5: when the query parameter `word` is absent or empty, `SavePalindromeHandler` answers
400 with the error "Word query parameter is required" and returns the store as it was,
records and id sequence, whatever the outcome `ok` a create would have had: it makes no
create, which with `ok = true` would have added a record. -/
theorem SavePalindromeHandler_missing_word (T : unicode.Tables)
    (sql : GoString → Store → Store) (db : Store) (ok : Bool) :
    SavePalindromeHandler T db ok none
        = (⟨400, Body.error "Word query parameter is required"⟩, db)
      ∧ SavePalindromeHandler T db ok (some [])
        = (⟨400, Body.error "Word query parameter is required"⟩, db)
      ∧ (serve T sql db ok (Request.save none)).2.rows = db.rows
      ∧ (serve T sql db ok (Request.save (some []))).2.rows = db.rows :=
  ⟨rfl, rfl, rfl, rfl⟩

/-- C6: after a save of a non-empty word `t` whose create succeeds (the save answers 200),
`GetWordsHandler`, its statement succeeding, answers 200 with a list that holds a record with the word `t` as
submitted and the flag `IsPalindrome(t)`; the save answered "Word saved successfully" with
`t` and `IsPalindrome(t)`, which for "Level" is the word "Level" and `true`. -/
theorem save_then_list (T : unicode.Tables) (db : Store) (ok : Bool) (t : GoString)
    (ht : t ≠ []) (hs : (SavePalindromeHandler T db ok (some t)).1.status = 200) :
    (∃ ws, (GetWordsHandler (SavePalindromeHandler T db ok (some t)).2 true).1
          = ⟨200, Body.words ws⟩
        ∧ ∃ r ∈ ws, r.Word = t ∧ r.Palindrome = IsPalindrome T t)
      ∧ (SavePalindromeHandler T db ok (some t)).1
          = ⟨200, Body.saved "Word saved successfully" t (IsPalindrome T t)⟩
      ∧ (t = runes "Level" → (SavePalindromeHandler T db ok (some t)).1
          = ⟨200, Body.saved "Word saved successfully" (runes "Level") true⟩) := by
  have h := (SavePalindromeHandler_of_ok T db ok (some t) hs).2.2.2
  have hq : Query (some t) = t := rfl
  rw [hq] at h
  refine ⟨⟨db.rows ++ [created T db t], ?_, created T db t, by simp, rfl, rfl⟩, ?_, ?_⟩
  · rw [h]; rfl
  · rw [h]
  · intro e
    subst e
    rw [h]
    rfl

theorem save_then_list_witness :
    (∃ ws, (GetWordsHandler (SavePalindromeHandler unicode.excerpt
            ⟨[⟨1, runes "hello", false⟩], 2⟩ true (some (runes "Level"))).2 true).1
          = ⟨200, Body.words ws⟩
        ∧ ∃ r ∈ ws, r.Word = runes "Level"
            ∧ r.Palindrome = IsPalindrome unicode.excerpt (runes "Level"))
      ∧ (SavePalindromeHandler unicode.excerpt ⟨[⟨1, runes "hello", false⟩], 2⟩ true
            (some (runes "Level"))).1
          = ⟨200, Body.saved "Word saved successfully" (runes "Level")
              (IsPalindrome unicode.excerpt (runes "Level"))⟩
      ∧ (runes "Level" = runes "Level" →
          (SavePalindromeHandler unicode.excerpt ⟨[⟨1, runes "hello", false⟩], 2⟩ true
            (some (runes "Level"))).1
          = ⟨200, Body.saved "Word saved successfully" (runes "Level") true⟩) :=
  save_then_list unicode.excerpt ⟨[⟨1, runes "hello", false⟩], 2⟩ true (runes "Level")
    (by decide) (by decide)

/-- C7: the flag of a stored record does not stay `IsPalindrome` of its word, and a
record is modified after its creation.  After a save of "Level" on the empty store, which
stores the flag `true`, a delete whose path text is `flagUpdate` is answered 200 and
leaves the record with the flag `false`: the handler passes the text on unvalidated, and
the database executes it as SQL, the update included. -/
theorem delete_text_flips_flag (T : unicode.Tables) (sql : GoString → Store → Store)
    (hsql : ∀ db, sql flagUpdate db = db.negated) :
    (run T sql Store.empty [(Request.save (some (runes "Level")), true)]).rows
        = [⟨1, runes "Level", true⟩]
      ∧ (serve T sql (run T sql Store.empty [(Request.save (some (runes "Level")), true)])
            true (Request.delete flagUpdate)).1
          = ⟨200, Body.message "Word deleted successfully"⟩
      ∧ (run T sql Store.empty [(Request.save (some (runes "Level")), true),
            (Request.delete flagUpdate, true)]).rows = [⟨1, runes "Level", false⟩]
      ∧ IsPalindrome T (runes "Level") = true
      ∧ ¬ ∀ r ∈ (run T sql Store.empty [(Request.save (some (runes "Level")), true),
            (Request.delete flagUpdate, true)]).rows, r.Palindrome = IsPalindrome T r.Word := by
  have hA : Atoi flagUpdate = none := by decide
  have h1 : run T sql Store.empty [(Request.save (some (runes "Level")), true)]
      = ⟨[⟨1, runes "Level", true⟩], 2⟩ := rfl
  have h2 : run T sql Store.empty [(Request.save (some (runes "Level")), true),
      (Request.delete flagUpdate, true)] = ⟨[⟨1, runes "Level", false⟩], 2⟩ := by
    show (DeleteWordHandler sql ⟨[⟨1, runes "Level", true⟩], 2⟩ true flagUpdate).2 = _
    simp only [DeleteWordHandler, Store.Delete, if_true, hA, hsql]
    rfl
  refine ⟨by rw [h1], ?_, by rw [h2], rfl, ?_⟩
  · rw [h1]
    show (DeleteWordHandler sql ⟨[⟨1, runes "Level", true⟩], 2⟩ true flagUpdate).1 = _
    simp only [DeleteWordHandler, Store.Delete, if_true, hA]
  · rw [h2]
    intro h
    have := h ⟨1, runes "Level", false⟩ (List.mem_singleton.mpr rfl)
    exact Bool.noConfusion this

theorem delete_text_flips_flag_witness :
    (∀ db, (fun text db => if text = flagUpdate then Store.negated db else db) flagUpdate db
        = db.negated)
      ∧ (run unicode.excerpt (fun text db => if text = flagUpdate then Store.negated db else db)
          Store.empty [(Request.save (some (runes "Level")), true),
            (Request.delete flagUpdate, true)]).rows = [⟨1, runes "Level", false⟩]
      ∧ IsPalindrome unicode.excerpt (runes "Level") = true :=
  ⟨fun _ => if_pos rfl,
    (delete_text_flips_flag unicode.excerpt
      (fun text db => if text = flagUpdate then Store.negated db else db)
      (fun _ => if_pos rfl)).2.2.1,
    by decide⟩

/-- C8: for every value of the query parameter `word`, absent read as empty, and every
store, the handler of `GET /ispalindrome` answers 200 with the message
`IsPalindrome(word)` and returns the store as it was; a second call with the same word, on
the store the first returns or on any other, gives the same response. -/
theorem ispalindromeHandler_pure (T : unicode.Tables) (sql : GoString → Store → Store)
    (db : Store) (ok : Bool) (word : Option GoString) :
    serve T sql db ok (Request.check word)
        = (⟨200, Body.check (IsPalindrome T (word.getD []))⟩, db)
      ∧ ispalindromeHandler T db none = (⟨200, Body.check (IsPalindrome T [])⟩, db)
      ∧ (ispalindromeHandler T (ispalindromeHandler T db word).2 word).1
          = (ispalindromeHandler T db word).1
      ∧ ∀ db2 : Store, (ispalindromeHandler T db2 word).1 = (ispalindromeHandler T db word).1 :=
  ⟨rfl, rfl, rfl, fun _ => rfl⟩

/-- C9: when a save has succeeded (answered 200), the record it created has the id
`i = db.nextID`; `DeleteWordHandler` with the path parameter `i`, its statement succeeding,
answers 200 "Word deleted successfully", and `GetWordsHandler` then answers 200 with a
list that holds no record with id `i` and holds every other record that was stored before
the delete, which are the records stored before the save. -/
theorem delete_after_save (T : unicode.Tables) (sql : GoString → Store → Store) (db : Store)
    (ok : Bool) (word : Option GoString)
    (hs : (SavePalindromeHandler T db ok word).1.status = 200) :
    (∃ w, w.ID = db.nextID
        ∧ (SavePalindromeHandler T db ok word).2.rows = db.rows ++ [w])
      ∧ (DeleteWordHandler sql (SavePalindromeHandler T db ok word).2 true
            (Itoa db.nextID)).1 = ⟨200, Body.message "Word deleted successfully"⟩
      ∧ ∃ ws, (GetWordsHandler (DeleteWordHandler sql (SavePalindromeHandler T db ok word).2
            true (Itoa db.nextID)).2 true).1 = ⟨200, Body.words ws⟩
          ∧ (∀ r ∈ ws, r.ID ≠ db.nextID)
          ∧ (∀ r ∈ (SavePalindromeHandler T db ok word).2.rows, r.ID ≠ db.nextID → r ∈ ws)
          ∧ ∀ r ∈ db.rows, r ∈ ws := by
  obtain ⟨_, hfit, hfresh, h⟩ := SavePalindromeHandler_of_ok T db ok word hs
  have hrows : (db.rows ++ [created T db (Query word)]).filter
      (fun r : Word => !(r.ID == db.nextID)) = db.rows := by
    rw [List.filter_append]
    have h1 : db.rows.filter (fun r : Word => !(r.ID == db.nextID)) = db.rows := by
      rw [List.filter_eq_self]
      intro r hr
      simpa using hfresh r hr
    have h2 : [created T db (Query word)].filter (fun r : Word => !(r.ID == db.nextID))
        = [] := by
      simp [created]
    rw [h1, h2, List.append_nil]
  have hdel := Store.Delete_Itoa sql (saved T db (Query word)) db.nextID hfit
  rw [h]
  refine ⟨⟨created T db (Query word), rfl, rfl⟩, ?_, db.rows, ?_, ?_, ?_, ?_⟩
  · simp only [DeleteWordHandler, hdel]
  · simp only [DeleteWordHandler, hdel, GetWordsHandler, Store.Find, if_true]
    simp only [saved, hrows]
  · intro r hr
    exact hfresh r hr
  · intro r hr hne
    simp only [saved, List.mem_append, List.mem_singleton] at hr
    rcases hr with hr | hr
    · exact hr
    · exact absurd (by rw [hr]; rfl) hne
  · intro r hr
    exact hr

theorem delete_after_save_witness :
    (∃ w : Word, w.ID = 7
        ∧ (SavePalindromeHandler unicode.excerpt
            ⟨[⟨3, runes "hello", false⟩, ⟨5, runes "Анна", true⟩], 7⟩ true
            (some (runes "Level"))).2.rows
          = [⟨3, runes "hello", false⟩, ⟨5, runes "Анна", true⟩] ++ [w])
      ∧ (DeleteWordHandler (fun _ db => db) (SavePalindromeHandler unicode.excerpt
            ⟨[⟨3, runes "hello", false⟩, ⟨5, runes "Анна", true⟩], 7⟩ true
            (some (runes "Level"))).2 true (Itoa 7)).1
          = ⟨200, Body.message "Word deleted successfully"⟩
      ∧ ∃ ws, (GetWordsHandler (DeleteWordHandler (fun _ db => db)
            (SavePalindromeHandler unicode.excerpt
              ⟨[⟨3, runes "hello", false⟩, ⟨5, runes "Анна", true⟩], 7⟩ true
              (some (runes "Level"))).2 true (Itoa 7)).2 true).1 = ⟨200, Body.words ws⟩
          ∧ (∀ r ∈ ws, r.ID ≠ 7)
          ∧ (∀ r ∈ (SavePalindromeHandler unicode.excerpt
              ⟨[⟨3, runes "hello", false⟩, ⟨5, runes "Анна", true⟩], 7⟩ true
              (some (runes "Level"))).2.rows, r.ID ≠ 7 → r ∈ ws)
          ∧ ∀ r ∈ [(⟨3, runes "hello", false⟩ : Word), ⟨5, runes "Анна", true⟩], r ∈ ws :=
  delete_after_save unicode.excerpt (fun _ db => db)
    ⟨[⟨3, runes "hello", false⟩, ⟨5, runes "Анна", true⟩], 7⟩ true (some (runes "Level"))
    (by decide)
